import Mathlib

/-!
Verification of the Helios-Ascension asset-preparation utilities.

Part 1 embeds `src/add_textures_to_ron.py`: the function `process_ron_file`
scans the lines of a RON file, tracking the current body name and whether a
texture line was already inserted, and inserts a
`texture: Some("<path>"),` line right after each matched body's
`rotation_period:` line.

Part 2 embeds `src/assets/textures/generate_placeholders.py`: the function
`create_rocky_texture` seeds the global random generator and adds a
per-pixel noise delta in [-30, 30] to every channel of a flat base-color
raster, clamping to [0, 255].

Lines are modelled as lists of characters (including any trailing newline,
as produced by Python's `readlines`).
-/

abbrev Line := List Char

/-- ASCII fragment of Python's regex class `\s` (the inputs of interest are
ASCII; Python additionally accepts some Unicode whitespace). -/
def isPySpace (c : Char) : Bool :=
  c = ' ' || c = '\t' || c = '\n' || c = '\r' || c = '\x0b' || c = '\x0c'

/-- Greedy `\s*`: drop the maximal run of leading whitespace.  Because in
both patterns of the source the character after `\s*` can never itself be
whitespace, the greedy match never backtracks, so dropping the maximal run
is a faithful model. -/
def dropWs : Line → Line
  | [] => []
  | c :: cs => if isPySpace c then dropWs cs else c :: cs

/-- Match a literal character sequence at the front of a line, returning the
rest of the line on success. -/
def dropLit : List Char → Line → Option Line
  | [], l => some l
  | _ :: _, [] => none
  | c :: cs, d :: ds => if c = d then dropLit cs ds else none

/-- The literal `name:` of the pattern `\s*name:\s*"([^"]+)"`. -/
def nameKey : List Char := ['n', 'a', 'm', 'e', ':']

/-- The literal `rotation_period:` of the pattern `\s*rotation_period:`. -/
def rotKey : List Char :=
  ['r', 'o', 't', 'a', 't', 'i', 'o', 'n', '_', 'p', 'e', 'r', 'i', 'o', 'd', ':']

/-- After an opening double quote, `([^"]+)"` captures the characters up to
the next double quote (failing when no closing quote exists).  The caller
rejects an empty capture, since `[^"]+` needs at least one character. -/
def scanQuoted : Line → Option Line
  | [] => none
  | c :: cs => if c = '"' then some [] else (scanQuoted cs).map (fun r => c :: r)

/-- Model of `re.match(r'\s*name:\s*"([^"]+)"', line)`: returns the captured
body name, or `none` when the line is not a name line. -/
def matchNameLine (line : Line) : Option Line :=
  match dropLit nameKey (dropWs line) with
  | none => none
  | some r =>
    match dropWs r with
    | [] => none
    | c :: rest =>
      if c = '"' then
        match scanQuoted rest with
        | none => none
        | some nm => if nm = [] then none else some nm
      else none

/-- Model of `re.match(r'\s*rotation_period:', line)` as a Boolean test. -/
def matchRotLine (line : Line) : Bool :=
  (dropLit rotKey (dropWs line)).isSome

/-- `len(line) - len(line.lstrip())`: the number of leading whitespace
characters of the line. -/
def indentOf (line : Line) : Nat :=
  (line.takeWhile isPySpace).length

/-- The literal `texture: Some("` that precedes the path. -/
def texOpenLit : List Char :=
  ['t', 'e', 'x', 't', 'u', 'r', 'e', ':', ' ', 'S', 'o', 'm', 'e', '(', '"']

/-- The literal `"),` plus newline that follows the path. -/
def texCloseLit : List Char := ['"', ')', ',', '\n']

/-- `' ' * indent + f'texture: Some("{texture_path}"),\n'`. -/
def mkTextureLine (indent : Nat) (path : Line) : Line :=
  List.replicate indent ' ' ++ texOpenLit ++ path ++ texCloseLit

/-- Lookup in the name-to-path mapping (a Python dict with distinct keys,
modelled as an association list). -/
def lookupTexture (m : List (Line × Line)) (n : Line) : Option Line :=
  match m with
  | [] => none
  | (k, v) :: rest => if k = n then some v else lookupTexture rest n

/-- The module-level `TEXTURE_MAPPING` dictionary of the source. -/
def TEXTURE_MAPPING : List (Line × Line) :=
  [("Sol".data, "textures/celestial/stars/sun_2k.jpg".data),
   ("Mercury".data, "textures/celestial/planets/mercury_2k.jpg".data),
   ("Venus".data, "textures/celestial/planets/venus_atmosphere_2k.jpg".data),
   ("Earth".data, "textures/celestial/planets/earth_2k.jpg".data),
   ("Mars".data, "textures/celestial/planets/mars_2k.jpg".data),
   ("Jupiter".data, "textures/celestial/planets/jupiter_2k.jpg".data),
   ("Saturn".data, "textures/celestial/planets/saturn_2k.jpg".data),
   ("Uranus".data, "textures/celestial/planets/uranus_2k.jpg".data),
   ("Neptune".data, "textures/celestial/planets/neptune_2k.jpg".data),
   ("Pluto".data, "textures/celestial/planets/pluto_1k.jpg".data),
   ("Ceres".data, "textures/celestial/planets/ceres_1k.jpg".data),
   ("Eris".data, "textures/celestial/planets/eris_1k.jpg".data),
   ("Moon".data, "textures/celestial/moons/moon_2k.jpg".data),
   ("Io".data, "textures/celestial/moons/io_1k.jpg".data),
   ("Europa".data, "textures/celestial/moons/europa_1k.jpg".data),
   ("Ganymede".data, "textures/celestial/moons/ganymede_1k.jpg".data),
   ("Callisto".data, "textures/celestial/moons/callisto_1k.jpg".data),
   ("Titan".data, "textures/celestial/moons/titan_1k.jpg".data),
   ("Rhea".data, "textures/celestial/moons/rhea_1k.jpg".data),
   ("Iapetus".data, "textures/celestial/moons/iapetus_1k.jpg".data),
   ("Dione".data, "textures/celestial/moons/dione_1k.jpg".data),
   ("Tethys".data, "textures/celestial/moons/tethys_1k.jpg".data),
   ("Enceladus".data, "textures/celestial/moons/enceladus_1k.jpg".data)]

/-- The scan state of `process_ron_file`: the accumulated output lines, the
current body name (`None` initially and after each anchor), whether a
texture was already added for the current body, and the updated count. -/
structure PatchState where
  output_lines : List Line
  current_body_name : Option Line
  texture_added : Bool
  bodies_updated : Nat
  deriving DecidableEq

/-- The body of the `for i, line in enumerate(lines)` loop of
`process_ron_file`, acting on one line.  A `name:` match sets the current
body name and clears `texture_added`; then, when a (necessarily non-empty)
body name is set, no texture has been added, and the line is a
`rotation_period:` line, the line is emitted followed by the texture line
when the name is mapped, and the current body name is cleared; every other
line is copied unchanged. -/
def processLineStep (m : List (Line × Line)) (s : PatchState) (line : Line) : PatchState :=
  let s1 :=
    match matchNameLine line with
    | some nm =>
      { s with current_body_name := some nm, texture_added := false }
    | none => s
  match s1.current_body_name with
  | some nm =>
    if !nm.isEmpty && !s1.texture_added && matchRotLine line then
      match lookupTexture m nm with
      | some path =>
        { output_lines := s1.output_lines ++ [line, mkTextureLine (indentOf line) path]
          current_body_name := none
          texture_added := true
          bodies_updated := s1.bodies_updated + 1 }
      | none =>
        { s1 with
            output_lines := s1.output_lines ++ [line]
            current_body_name := none }
    else
      { s1 with output_lines := s1.output_lines ++ [line] }
  | none => { s1 with output_lines := s1.output_lines ++ [line] }

/-- `process_ron_file`, with the file I/O abstracted away: from the list of
input lines, produce the final scan state (output lines and updated
count). -/
def process_ron_file (m : List (Line × Line)) (lines : List Line) : PatchState :=
  List.foldl (processLineStep m) ⟨[], none, false, 0⟩ lines

/-- Running the scan loop from a given cursor/flag with an empty output
accumulator; `process_ron_file` is `runPatch` from the initial state. -/
def runPatch (m : List (Line × Line)) (cur : Option Line) (ta : Bool)
    (ls : List Line) : PatchState :=
  List.foldl (processLineStep m) ⟨[], cur, ta, 0⟩ ls

/-!
Part 2: the placeholder texture generator.  Pixels carry Python integers;
the raster is a list of rows (y from 0 upward), each a list of pixels
(x from 0 upward), matching the row-major `for y: for x:` noise loop.
The Python `random` module is global state threaded through the calls; the
spec only requires a seedable deterministic generator (not Mersenne
Twister), so the stream is modelled by a 32-bit linear congruential
generator.  `PIL`'s `GaussianBlur` is a pure deterministic transform of the
raster, modelled as an explicit function parameter `blur`.
-/

abbrev Pixel := Int × Int × Int

/-- One step of the modelled generator (32-bit LCG). -/
def rngNext (s : Nat) : Nat :=
  (1664525 * s + 1013904223) % 4294967296

/-- `random.seed(seed)`: the state becomes a function of `seed` alone,
discarding whatever state the generator had before. -/
def seedRng (seed : Nat) : Nat :=
  seed % 4294967296

/-- `random.randint(lo, hi)`: an integer in `[lo, hi]` (both ends
included), plus the advanced generator state. -/
def randint (lo hi : Int) (s : Nat) : Int × Nat :=
  let s1 := rngNext s
  (lo + Int.ofNat (s1 % (hi - lo + 1).toNat), s1)

/-- `max(0, min(255, v))`. -/
def clampChannel (v : Int) : Int :=
  max 0 (min 255 v)

/-- The per-pixel update of the noise loop: one delta added to all three
channels, each clamped to `[0, 255]`. -/
def noisePixel (p : Pixel) (noise : Int) : Pixel :=
  (clampChannel (p.1 + noise), clampChannel (p.2.1 + noise),
   clampChannel (p.2.2 + noise))

/-- The inner `for x in range(width)` loop: every pixel of the row starts
as the base color (the image is created flat) and receives its own
`random.randint(-30, 30)` delta. -/
def noiseRow (base : Pixel) (width : Nat) (s : Nat) : List Pixel × Nat :=
  match width with
  | 0 => ([], s)
  | w + 1 =>
    let r := randint (-30) 30 s
    let rest := noiseRow base w r.2
    (noisePixel base r.1 :: rest.1, rest.2)

/-- The outer `for y in range(height)` loop. -/
def noiseGrid (base : Pixel) (width height : Nat) (s : Nat) :
    List (List Pixel) × Nat :=
  match height with
  | 0 => ([], s)
  | h + 1 =>
    let row := noiseRow base width s
    let rest := noiseGrid base width h row.2
    (row.1 :: rest.1, rest.2)

/-- `create_rocky_texture(width, height, base_color, seed)`: seeds the
global generator (discarding the incoming state `g0`), builds the
`width × height` flat raster, applies per-pixel noise, and blurs.  The
returned pair is the raster together with the generator state left behind
for subsequent calls. -/
def create_rocky_texture (blur : List (List Pixel) → List (List Pixel))
    (width height : Nat) (base_color : Pixel) (seed : Nat) (g0 : Nat) :
    List (List Pixel) × Nat :=
  let g1 := seedRng seed
  let r := noiseGrid base_color width height g1
  (blur r.1, r.2)

/-- `create_moon_texture(output_path, width, height, color_tuple, name)`
with the file I/O abstracted away: the seed is `hash(name)` for the
process's string-hash function `pyHash`. -/
def create_moon_texture (blur : List (List Pixel) → List (List Pixel))
    (pyHash : List Char → Nat) (width height : Nat) (color_tuple : Pixel)
    (name : List Char) (g0 : Nat) : List (List Pixel) × Nat :=
  create_rocky_texture blur width height color_tuple (pyHash name) g0

/-! Basic facts about the two line patterns. -/

/-- A captured body name is never the empty string (`[^"]+`). -/
theorem matchName_ne_nil {l nm : Line} (h : matchNameLine l = some nm) :
    nm ≠ [] := by
  unfold matchNameLine at h
  repeat' split at h
  all_goals simp_all

/-- A successful literal match pins down the head of the scanned text. -/
theorem dropLit_cons {c : Char} {cs : List Char} {l r : Line}
    (h : dropLit (c :: cs) l = some r) : ∃ l2, l = c :: l2 := by
  cases l with
  | nil => simp [dropLit] at h
  | cons d ds =>
    unfold dropLit at h
    split at h
    · next heq => exact ⟨ds, by rw [heq]⟩
    · simp at h

/-- A `name:` line is never a `rotation_period:` line. -/
theorem name_not_rot {l nm : Line} (h : matchNameLine l = some nm) :
    matchRotLine l = false := by
  unfold matchNameLine at h
  cases h1 : dropLit nameKey (dropWs l) with
  | none => rw [h1] at h; simp at h
  | some r =>
    obtain ⟨l2, hl2⟩ :=
      dropLit_cons (show dropLit ('n' :: ['a', 'm', 'e', ':']) (dropWs l) = some r from h1)
    simp [matchRotLine, hl2, rotKey, dropLit]

/-- A `rotation_period:` line is never a `name:` line. -/
theorem rot_not_name {l : Line} (h : matchRotLine l = true) :
    matchNameLine l = none := by
  unfold matchRotLine at h
  cases h1 : dropLit rotKey (dropWs l) with
  | none => rw [h1] at h; simp at h
  | some r =>
    obtain ⟨l2, hl2⟩ := dropLit_cons
      (show dropLit ('r' :: ['o', 't', 'a', 't', 'i', 'o', 'n', '_', 'p', 'e', 'r', 'i', 'o', 'd', ':'])
        (dropWs l) = some r from h1)
    unfold matchNameLine
    rw [hl2]
    simp [nameKey, dropLit]

/-- Dropping leading whitespace passes over an all-whitespace prefix. -/
theorem dropWs_ws_append (ws l : Line)
    (h : ∀ c ∈ ws, isPySpace c = true) : dropWs (ws ++ l) = dropWs l := by
  induction ws with
  | nil => rfl
  | cons c cs ih =>
    have hc : isPySpace c = true := h c (List.mem_cons_self c cs)
    simp only [List.cons_append, dropWs, hc, if_pos]
    exact ih (fun d hd => h d (List.mem_cons_of_mem c hd))

/-- Dropping leading whitespace from an inserted texture line reaches its
first letter. -/
theorem dropWs_texline (i : Nat) (p : Line) :
    dropWs (mkTextureLine i p) =
      't' :: (['e', 'x', 't', 'u', 'r', 'e', ':', ' ', 'S', 'o', 'm', 'e', '(', '"'] ++
        (p ++ texCloseLit)) := by
  have hrep : ∀ c ∈ List.replicate i ' ', isPySpace c = true := by
    intro c hc
    rw [List.eq_of_mem_replicate hc]
    decide
  unfold mkTextureLine
  simp only [List.append_assoc]
  rw [dropWs_ws_append (List.replicate i ' ') (texOpenLit ++ (p ++ texCloseLit)) hrep]
  show dropWs ('t' :: (['e', 'x', 't', 'u', 'r', 'e', ':', ' ', 'S', 'o', 'm', 'e', '(', '"'] ++
    (p ++ texCloseLit))) = _
  simp [dropWs, show isPySpace 't' = false from by decide]

/-- An inserted texture line is itself not a `name:` line. -/
theorem texline_not_name (i : Nat) (p : Line) :
    matchNameLine (mkTextureLine i p) = none := by
  unfold matchNameLine
  rw [dropWs_texline]
  simp [nameKey, dropLit]

/-- An inserted texture line never triggers the anchor pattern. -/
theorem texline_not_rot (i : Nat) (p : Line) :
    matchRotLine (mkTextureLine i p) = false := by
  unfold matchRotLine
  rw [dropWs_texline]
  simp [rotKey, dropLit]

/-! Effect of one loop iteration, by kind of line and scan state. -/

/-- A line that matches neither pattern is copied unchanged and leaves the
scan state alone. -/
theorem step_other (m : List (Line × Line)) (out : List Line)
    (cur : Option Line) (ta : Bool) (cnt : Nat) {l : Line}
    (h1 : matchNameLine l = none) (h2 : matchRotLine l = false) :
    processLineStep m ⟨out, cur, ta, cnt⟩ l = ⟨out ++ [l], cur, ta, cnt⟩ := by
  unfold processLineStep
  rw [h1]
  cases cur with
  | none => rfl
  | some nm => simp [h2]

/-- A `name:` line is copied unchanged, sets the cursor to the captured
name and clears the texture flag. -/
theorem step_name (m : List (Line × Line)) (out : List Line)
    (cur : Option Line) (ta : Bool) (cnt : Nat) {l nm : Line}
    (h : matchNameLine l = some nm) :
    processLineStep m ⟨out, cur, ta, cnt⟩ l = ⟨out ++ [l], some nm, false, cnt⟩ := by
  unfold processLineStep
  rw [h, name_not_rot h]
  simp

/-- The anchor line of a mapped body: the line is emitted, the texture line
follows it, the cursor is cleared, the flag set, the count incremented. -/
theorem step_rot_mapped (m : List (Line × Line)) (out : List Line)
    (cnt : Nat) {l nm path : Line}
    (h2 : matchRotLine l = true) (h3 : nm ≠ [])
    (h4 : lookupTexture m nm = some path) :
    processLineStep m ⟨out, some nm, false, cnt⟩ l
      = ⟨out ++ [l, mkTextureLine (indentOf l) path], none, true, cnt + 1⟩ := by
  unfold processLineStep
  rw [rot_not_name h2]
  cases nm with
  | nil => exact absurd rfl h3
  | cons a as => simp [h2, h4]

/-- The anchor line of an unmapped body: the line is copied, the cursor is
cleared, nothing is inserted and the count is unchanged. -/
theorem step_rot_unmapped (m : List (Line × Line)) (out : List Line)
    (cnt : Nat) {l nm : Line}
    (h2 : matchRotLine l = true) (h3 : nm ≠ [])
    (h4 : lookupTexture m nm = none) :
    processLineStep m ⟨out, some nm, false, cnt⟩ l
      = ⟨out ++ [l], none, false, cnt⟩ := by
  unfold processLineStep
  rw [rot_not_name h2]
  cases nm with
  | nil => exact absurd rfl h3
  | cons a as => simp [h2, h4]

/-- With no cursor set, any non-`name:` line (anchor lines included) is
copied unchanged. -/
theorem step_nocursor (m : List (Line × Line)) (out : List Line)
    (ta : Bool) (cnt : Nat) {l : Line} (h1 : matchNameLine l = none) :
    processLineStep m ⟨out, none, ta, cnt⟩ l = ⟨out ++ [l], none, ta, cnt⟩ := by
  unfold processLineStep
  rw [h1]

/-! Composition: the loop from an arbitrary state is the loop from a fresh
state with the incoming output and count prepended. -/

/-- One iteration only appends to the output and adds to the count; the
appended lines, new cursor and new flag depend only on the incoming cursor
and flag. -/
theorem step_frame (m : List (Line × Line)) (l : Line) (out : List Line)
    (cur : Option Line) (ta : Bool) (cnt : Nat) :
    processLineStep m ⟨out, cur, ta, cnt⟩ l =
      ⟨out ++ (processLineStep m ⟨[], cur, ta, 0⟩ l).output_lines,
       (processLineStep m ⟨[], cur, ta, 0⟩ l).current_body_name,
       (processLineStep m ⟨[], cur, ta, 0⟩ l).texture_added,
       cnt + (processLineStep m ⟨[], cur, ta, 0⟩ l).bodies_updated⟩ := by
  unfold processLineStep
  cases h1 : matchNameLine l with
  | some nm =>
    simp only []
    by_cases hg : (!nm.isEmpty && !false && matchRotLine l) = true
    · rw [if_pos hg, if_pos hg]
      cases h4 : lookupTexture m nm <;> simp
    · rw [if_neg hg, if_neg hg]
      simp
  | none =>
    cases cur with
    | none => simp
    | some nm =>
      simp only []
      by_cases hg : (!nm.isEmpty && !ta && matchRotLine l) = true
      · rw [if_pos hg, if_pos hg]
        cases h4 : lookupTexture m nm <;> simp
      · rw [if_neg hg, if_neg hg]
        simp

/-- The whole loop from an arbitrary state, in terms of `runPatch` from a
fresh state. -/
theorem fold_frame (m : List (Line × Line)) (ls : List Line) :
    ∀ (out : List Line) (cur : Option Line) (ta : Bool) (cnt : Nat),
    List.foldl (processLineStep m) ⟨out, cur, ta, cnt⟩ ls =
      ⟨out ++ (runPatch m cur ta ls).output_lines,
       (runPatch m cur ta ls).current_body_name,
       (runPatch m cur ta ls).texture_added,
       cnt + (runPatch m cur ta ls).bodies_updated⟩ := by
  induction ls with
  | nil => intro out cur ta cnt; simp [runPatch]
  | cons l ls ih =>
    intro out cur ta cnt
    rw [List.foldl_cons, step_frame]
    rcases hstep : processLineStep m ⟨[], cur, ta, 0⟩ l with ⟨e, c2, t2, k⟩
    show List.foldl (processLineStep m) ⟨out ++ e, c2, t2, cnt + k⟩ ls = _
    rw [ih]
    have hr : runPatch m cur ta (l :: ls) =
        ⟨e ++ (runPatch m c2 t2 ls).output_lines,
         (runPatch m c2 t2 ls).current_body_name,
         (runPatch m c2 t2 ls).texture_added,
         k + (runPatch m c2 t2 ls).bodies_updated⟩ := by
      show List.foldl (processLineStep m) ⟨[], cur, ta, 0⟩ (l :: ls) = _
      rw [List.foldl_cons, hstep]
      have := ih e c2 t2 k
      rw [this]
    rw [hr]
    simp [List.append_assoc, Nat.add_assoc]

/-- `runPatch` on a concatenation: the second half continues from the first
half's cursor and flag, with outputs concatenated and counts added. -/
theorem runPatch_append (m : List (Line × Line)) (xs ys : List Line)
    (cur : Option Line) (ta : Bool) :
    runPatch m cur ta (xs ++ ys) =
      ⟨(runPatch m cur ta xs).output_lines ++
         (runPatch m (runPatch m cur ta xs).current_body_name
           (runPatch m cur ta xs).texture_added ys).output_lines,
       (runPatch m (runPatch m cur ta xs).current_body_name
         (runPatch m cur ta xs).texture_added ys).current_body_name,
       (runPatch m (runPatch m cur ta xs).current_body_name
         (runPatch m cur ta xs).texture_added ys).texture_added,
       (runPatch m cur ta xs).bodies_updated +
         (runPatch m (runPatch m cur ta xs).current_body_name
           (runPatch m cur ta xs).texture_added ys).bodies_updated⟩ := by
  show List.foldl (processLineStep m) ⟨[], cur, ta, 0⟩ (xs ++ ys) = _
  rw [List.foldl_append]
  rcases hxs : runPatch m cur ta xs with ⟨o1, c1, t1, k1⟩
  have hxs2 : List.foldl (processLineStep m) ⟨[], cur, ta, 0⟩ xs = ⟨o1, c1, t1, k1⟩ := hxs
  rw [hxs2, fold_frame]

/-- `runPatch` on a cons cell, via the fresh effect of the first line. -/
theorem runPatch_cons (m : List (Line × Line)) (l : Line) (ls : List Line)
    (cur : Option Line) (ta : Bool) :
    runPatch m cur ta (l :: ls) =
      ⟨(processLineStep m ⟨[], cur, ta, 0⟩ l).output_lines ++
         (runPatch m (processLineStep m ⟨[], cur, ta, 0⟩ l).current_body_name
           (processLineStep m ⟨[], cur, ta, 0⟩ l).texture_added ls).output_lines,
       (runPatch m (processLineStep m ⟨[], cur, ta, 0⟩ l).current_body_name
         (processLineStep m ⟨[], cur, ta, 0⟩ l).texture_added ls).current_body_name,
       (runPatch m (processLineStep m ⟨[], cur, ta, 0⟩ l).current_body_name
         (processLineStep m ⟨[], cur, ta, 0⟩ l).texture_added ls).texture_added,
       (processLineStep m ⟨[], cur, ta, 0⟩ l).bodies_updated +
         (runPatch m (processLineStep m ⟨[], cur, ta, 0⟩ l).current_body_name
           (processLineStep m ⟨[], cur, ta, 0⟩ l).texture_added ls).bodies_updated⟩ := by
  show List.foldl (processLineStep m) ⟨[], cur, ta, 0⟩ (l :: ls) = _
  rw [List.foldl_cons]
  rcases hstep : processLineStep m ⟨[], cur, ta, 0⟩ l with ⟨e, c2, t2, k⟩
  rw [fold_frame]

/-- `process_ron_file` is the loop from the initial state. -/
theorem process_eq_runPatch (m : List (Line × Line)) (lines : List Line) :
    process_ron_file m lines = runPatch m none false lines := rfl

/-- `runPatch` on the empty list. -/
theorem runPatch_nil (m : List (Line × Line)) (cur : Option Line) (ta : Bool) :
    runPatch m cur ta [] = ⟨[], cur, ta, 0⟩ := rfl

/-! Behavior of the loop on whole spans of lines. -/

/-- A span with neither `name:` nor `rotation_period:` lines is copied
verbatim and leaves the cursor and flag untouched. -/
theorem seg_plain (m : List (Line × Line)) :
    ∀ M : List Line, (∀ l ∈ M, matchNameLine l = none ∧ matchRotLine l = false) →
    ∀ (cur : Option Line) (ta : Bool), runPatch m cur ta M = ⟨M, cur, ta, 0⟩ := by
  intro M
  induction M with
  | nil => intro _ cur ta; rfl
  | cons l M ih =>
    intro h cur ta
    have h1 := (h l (List.mem_cons_self l M)).1
    have h2 := (h l (List.mem_cons_self l M)).2
    rw [runPatch_cons, step_other m [] cur ta 0 h1 h2]
    simp [ih (fun d hd => h d (List.mem_cons_of_mem l hd))]

/-- With the cursor cleared, a span without `name:` lines is copied
verbatim; anchor lines inside it receive no insertion. -/
theorem seg_nocursor (m : List (Line × Line)) :
    ∀ N : List Line, (∀ l ∈ N, matchNameLine l = none) →
    ∀ ta : Bool, runPatch m none ta N = ⟨N, none, ta, 0⟩ := by
  intro N
  induction N with
  | nil => intro _ ta; rfl
  | cons l N ih =>
    intro h ta
    rw [runPatch_cons, step_nocursor m [] ta 0 (h l (List.mem_cons_self l N))]
    simp [ih (fun d hd => h d (List.mem_cons_of_mem l hd))]

/-- With the cursor holding an unmapped body name, a span without `name:`
lines is copied verbatim, nothing is counted, and the cursor stays in the
unmapped name or gets cleared by an anchor line. -/
theorem seg_unmapped (m : List (Line × Line)) {X : Line} (hX : X ≠ [])
    (hlk : lookupTexture m X = none) :
    ∀ N : List Line, (∀ l ∈ N, matchNameLine l = none) →
    ∀ cur : Option Line, (cur = some X ∨ cur = none) →
      ∃ c2, runPatch m cur false N = ⟨N, c2, false, 0⟩ ∧ (c2 = some X ∨ c2 = none) := by
  intro N
  induction N with
  | nil => intro _ cur hc; exact ⟨cur, rfl, hc⟩
  | cons l N ih =>
    intro h cur hc
    have h1 := h l (List.mem_cons_self l N)
    have hrest : ∀ d ∈ N, matchNameLine d = none :=
      fun d hd => h d (List.mem_cons_of_mem l hd)
    by_cases hrot : matchRotLine l = true
    · rcases hc with hc | hc
      · subst hc
        rw [runPatch_cons, step_rot_unmapped m [] 0 hrot hX hlk]
        obtain ⟨c2, hrun, hc2⟩ := ih hrest none (Or.inr rfl)
        refine ⟨c2, ?_, hc2⟩
        simp [hrun]
      · subst hc
        rw [runPatch_cons, step_nocursor m [] false 0 h1]
        obtain ⟨c2, hrun, hc2⟩ := ih hrest none (Or.inr rfl)
        refine ⟨c2, ?_, hc2⟩
        simp [hrun]
    · have hrot2 : matchRotLine l = false := by
        cases hr2 : matchRotLine l
        · rfl
        · exact absurd hr2 hrot
      rw [runPatch_cons, step_other m [] cur false 0 h1 hrot2]
      obtain ⟨c2, hrun, hc2⟩ := ih hrest cur hc
      refine ⟨c2, ?_, hc2⟩
      simp [hrun]

/-- Body of a mapped record after its `name:` line: the plain span is
copied, the anchor line is emitted followed by the texture line, the
cursor is cleared and exactly one update is counted. -/
theorem runPatch_body_mapped (m : List (Line × Line)) {X : Line}
    (M : List Line) {lr path : Line}
    (hM : ∀ l ∈ M, matchNameLine l = none ∧ matchRotLine l = false)
    (hr : matchRotLine lr = true) (hX : X ≠ [])
    (hmap : lookupTexture m X = some path) :
    runPatch m (some X) false (M ++ [lr]) =
      ⟨M ++ [lr, mkTextureLine (indentOf lr) path], none, true, 1⟩ := by
  rw [runPatch_append, seg_plain m M hM (some X) false]
  have hone : runPatch m (some X) false [lr]
      = ⟨[lr, mkTextureLine (indentOf lr) path], none, true, 1⟩ := by
    rw [runPatch_cons, step_rot_mapped m [] 0 hr hX hmap]
    simp [runPatch_nil]
  simp [hone]

/-- Body of an unmapped record after its `name:` line: the plain span and
the anchor line are copied verbatim, the cursor is cleared, nothing is
counted. -/
theorem runPatch_body_unmapped (m : List (Line × Line)) {X : Line}
    (M : List Line) {lr : Line}
    (hM : ∀ l ∈ M, matchNameLine l = none ∧ matchRotLine l = false)
    (hr : matchRotLine lr = true) (hX : X ≠ [])
    (hmap : lookupTexture m X = none) :
    runPatch m (some X) false (M ++ [lr]) = ⟨M ++ [lr], none, false, 0⟩ := by
  rw [runPatch_append, seg_plain m M hM (some X) false]
  have hone : runPatch m (some X) false [lr] = ⟨[lr], none, false, 0⟩ := by
    rw [runPatch_cons, step_rot_unmapped m [] 0 hr hX hmap]
    simp [runPatch_nil]
  simp [hone]

/-- A complete mapped record (`name:` line, plain span, anchor): from any
incoming state, its processed output is the record with the texture line
inserted right after the anchor, at the anchor's indentation width. -/
theorem rec_insert (m : List (Line × Line)) {ln X : Line} {M : List Line}
    {lr path : Line}
    (hn : matchNameLine ln = some X)
    (hM : ∀ l ∈ M, matchNameLine l = none ∧ matchRotLine l = false)
    (hr : matchRotLine lr = true)
    (hmap : lookupTexture m X = some path) :
    ∀ (cur : Option Line) (ta : Bool),
      runPatch m cur ta (ln :: (M ++ [lr])) =
        ⟨ln :: (M ++ [lr, mkTextureLine (indentOf lr) path]), none, true, 1⟩ := by
  intro cur ta
  rw [runPatch_cons, step_name m [] cur ta 0 hn]
  simp [runPatch_body_mapped m M hM hr (matchName_ne_nil hn) hmap]

/-! Counting and shape of the emitted output. -/

/-- Each iteration emits the line plus exactly one extra line per counted
update. -/
theorem step_len (m : List (Line × Line)) (s : PatchState) (l : Line) :
    (processLineStep m s l).output_lines.length + s.bodies_updated + 1
      = s.output_lines.length + (processLineStep m s l).bodies_updated + 2 := by
  rcases s with ⟨out, cur, ta, cnt⟩
  unfold processLineStep
  cases h1 : matchNameLine l with
  | some nm =>
    simp only []
    by_cases hg : (!nm.isEmpty && !false && matchRotLine l) = true
    · rw [if_pos hg]
      cases h4 : lookupTexture m nm <;> simp <;> omega
    · rw [if_neg hg]
      simp
      omega
  | none =>
    cases cur with
    | none =>
      simp
      omega
    | some nm =>
      simp only []
      by_cases hg : (!nm.isEmpty && !ta && matchRotLine l) = true
      · rw [if_pos hg]
        cases h4 : lookupTexture m nm <;> simp <;> omega
      · rw [if_neg hg]
        simp
        omega

/-- Over the whole loop: the output grows by one line per input line plus
one line per counted update. -/
theorem fold_len (m : List (Line × Line)) :
    ∀ (ls : List Line) (s : PatchState),
    (List.foldl (processLineStep m) s ls).output_lines.length + s.bodies_updated
      = s.output_lines.length + (List.foldl (processLineStep m) s ls).bodies_updated
        + ls.length := by
  intro ls
  induction ls with
  | nil => intro s; simp
  | cons l ls ih =>
    intro s
    rw [List.foldl_cons]
    have h1 := step_len m s l
    have h2 := ih (processLineStep m s l)
    simp only [List.length_cons]
    omega

/-- Each iteration appends the input line, possibly followed by one mapped
texture line. -/
theorem step_shape (m : List (Line × Line)) (s : PatchState) (l : Line) :
    ∃ extra, (processLineStep m s l).output_lines = s.output_lines ++ l :: extra
      ∧ (extra = [] ∨ ∃ nm path, lookupTexture m nm = some path
          ∧ extra = [mkTextureLine (indentOf l) path]) := by
  rcases s with ⟨out, cur, ta, cnt⟩
  unfold processLineStep
  cases h1 : matchNameLine l with
  | some nm =>
    simp only []
    by_cases hg : (!nm.isEmpty && !false && matchRotLine l) = true
    · rw [if_pos hg]
      cases h4 : lookupTexture m nm with
      | some path =>
        exact ⟨[mkTextureLine (indentOf l) path], by simp, Or.inr ⟨nm, path, h4, rfl⟩⟩
      | none => exact ⟨[], by simp, Or.inl rfl⟩
    · rw [if_neg hg]
      exact ⟨[], by simp, Or.inl rfl⟩
  | none =>
    cases cur with
    | none => exact ⟨[], by simp, Or.inl rfl⟩
    | some nm =>
      simp only []
      by_cases hg : (!nm.isEmpty && !ta && matchRotLine l) = true
      · rw [if_pos hg]
        cases h4 : lookupTexture m nm with
        | some path =>
          exact ⟨[mkTextureLine (indentOf l) path], by simp, Or.inr ⟨nm, path, h4, rfl⟩⟩
        | none => exact ⟨[], by simp, Or.inl rfl⟩
      · rw [if_neg hg]
        exact ⟨[], by simp, Or.inl rfl⟩

/-- The whole loop emits an output in which the input lines appear in order
and every other line is a mapped texture line. -/
theorem fold_shape (m : List (Line × Line)) :
    ∀ (ls : List Line) (s : PatchState),
    ∃ emitted, (List.foldl (processLineStep m) s ls).output_lines
        = s.output_lines ++ emitted
      ∧ List.Sublist ls emitted
      ∧ ∀ l2 ∈ emitted, l2 ∈ ls ∨ ∃ i nm path, lookupTexture m nm = some path
          ∧ l2 = mkTextureLine i path := by
  intro ls
  induction ls with
  | nil => intro s; exact ⟨[], by simp, List.Sublist.refl [], by simp⟩
  | cons l ls ih =>
    intro s
    rw [List.foldl_cons]
    obtain ⟨extra, hout, hextra⟩ := step_shape m s l
    obtain ⟨emitted, hout2, hsub, hmem⟩ := ih (processLineStep m s l)
    refine ⟨l :: (extra ++ emitted), ?_, ?_, ?_⟩
    · rw [hout2, hout]
      simp
    · refine List.Sublist.cons₂ l ?_
      exact hsub.trans (List.sublist_append_right extra emitted)
    · intro l2 hl2
      rcases List.mem_cons.mp hl2 with h | h
      · exact Or.inl (by simp [h])
      rcases List.mem_append.mp h with h | h
      · rcases hextra with he | ⟨nm, path, hlk, he⟩
        · rw [he] at h; simp at h
        · rw [he] at h
          simp at h
          exact Or.inr ⟨indentOf l, nm, path, hlk, h⟩
      · rcases hmem l2 h with h2 | h2
        · exact Or.inl (List.mem_cons_of_mem l h2)
        · exact Or.inr h2

/-- A record head (`name:` line) resets both cursor and flag, so the scan of
a span starting with a `name:` line does not depend on the incoming state. -/
theorem runPatch_restart (m : List (Line × Line)) (ln2 : Line) (r : List Line)
    {Y : Line} (h : matchNameLine ln2 = some Y)
    (c1 c2 : Option Line) (t1 t2 : Bool) :
    runPatch m c1 t1 (ln2 :: r) = runPatch m c2 t2 (ln2 :: r) := by
  rw [runPatch_cons, runPatch_cons, step_name m [] c1 t1 0 h, step_name m [] c2 t2 0 h]

/-- A complete record (mapped or not): after its anchor the cursor is
cleared, and the emitted lines are the record with at most the texture line
appended after the anchor. -/
theorem rec_anchor (m : List (Line × Line)) {ln X : Line} {M : List Line}
    {lr : Line}
    (hn : matchNameLine ln = some X)
    (hM : ∀ l ∈ M, matchNameLine l = none ∧ matchRotLine l = false)
    (hr : matchRotLine lr = true) :
    ∀ (cur : Option Line) (ta : Bool), ∃ ext t2 k,
      runPatch m cur ta (ln :: (M ++ [lr])) = ⟨ln :: (M ++ lr :: ext), none, t2, k⟩ := by
  intro cur ta
  cases hmap : lookupTexture m X with
  | some path =>
    refine ⟨[mkTextureLine (indentOf lr) path], true, 1, ?_⟩
    rw [rec_insert m hn hM hr hmap cur ta]
  | none =>
    refine ⟨[], false, 0, ?_⟩
    rw [runPatch_cons, step_name m [] cur ta 0 hn]
    simp [runPatch_body_unmapped m M hM hr (matchName_ne_nil hn) hmap]

/-! Concrete lines used by the closed instances below. -/

/-- The texture path that `TEXTURE_MAPPING` assigns to `Sol`. -/
def solPath : Line := "textures/celestial/stars/sun_2k.jpg".data

/-- The body name `Sol` (a key of the mapping). -/
def solName : Line := "Sol".data

/-- The body name `Halley` (not a key of the mapping). -/
def halleyName : Line := "Halley".data

/-- A `name:` line for `Sol`. -/
def lnSol : Line := "name: \"Sol\",\n".data

/-- A `name:` line for `Halley`. -/
def lnHalley : Line := "name: \"Halley\",\n".data

/-- A space-indented anchor line. -/
def lrSp : Line := "  rotation_period: 25.4,\n".data

/-- A tab-indented anchor line. -/
def lrTab : Line := ('\t' :: "rotation_period: 25.4,\n".data)

/-- C2: the value returned by the patcher equals the number of texture
lines it inserted: the output holds exactly `bodies_updated` more lines
than the input, and (by C3) the surplus lines are the inserted ones. -/
theorem C2_count_eq_insertions (m : List (Line × Line)) (lines : List Line) :
    (process_ron_file m lines).output_lines.length
      = lines.length + (process_ron_file m lines).bodies_updated := by
  have h := fold_len m lines ⟨[], none, false, 0⟩
  unfold process_ron_file
  simp at h
  omega

/-- C1 (counterexample): on a tab-indented anchor line the inserted line
does not consist of the anchor line's leading whitespace: the code inserts
`' ' * indent`, replacing the tab by a space.  The actual inserted line
(one space, then the texture field) differs from the line the claim
describes (the anchor's leading tab, then the texture field). -/
theorem C1_counterexample :
    (process_ron_file TEXTURE_MAPPING [lnSol, lrTab]).output_lines
      = [lnSol, lrTab, ' ' :: (texOpenLit ++ solPath ++ texCloseLit)]
    ∧ lrTab.takeWhile isPySpace ++ (texOpenLit ++ solPath ++ texCloseLit)
      ≠ ' ' :: (texOpenLit ++ solPath ++ texCloseLit) := by decide

/-- C1 (amended): when a `name: "X"` line with mapped `X` is followed by a
`rotation_period:` line with no other `name:` or `rotation_period:` line in
between, the output is the processed prefix, then the record verbatim, with
exactly one line inserted directly after the anchor, then the continuation;
the inserted line consists of one space per leading-whitespace character of
the anchor line, the literal `texture: Some("<path>"),` with the mapped
path, and a newline. -/
theorem C1_texture_insertion (m : List (Line × Line)) (P M S : List Line)
    (ln lr X path : Line)
    (hn : matchNameLine ln = some X)
    (hM : ∀ l ∈ M, matchNameLine l = none ∧ matchRotLine l = false)
    (hr : matchRotLine lr = true)
    (hmap : lookupTexture m X = some path) :
    (process_ron_file m (P ++ ln :: (M ++ lr :: S))).output_lines
      = (process_ron_file m P).output_lines
        ++ ln :: (M ++ lr :: mkTextureLine (indentOf lr) path
          :: (runPatch m none true S).output_lines)
    ∧ mkTextureLine (indentOf lr) path
      = List.replicate (indentOf lr) ' ' ++ texOpenLit ++ path ++ texCloseLit := by
  refine ⟨?_, rfl⟩
  have hsplit : P ++ ln :: (M ++ lr :: S) = P ++ ((ln :: (M ++ [lr])) ++ S) := by
    simp
  rw [process_eq_runPatch, hsplit, runPatch_append, runPatch_append,
      rec_insert m hn hM hr hmap]
  simp [process_eq_runPatch]

/-- C1 (witness): the amended statement at a concrete mapped record. -/
theorem C1_texture_insertion_witness :
    (process_ron_file TEXTURE_MAPPING ([] ++ lnSol :: ([] ++ lrSp :: []))).output_lines
      = (process_ron_file TEXTURE_MAPPING []).output_lines
        ++ lnSol :: ([] ++ lrSp :: mkTextureLine (indentOf lrSp) solPath
          :: (runPatch TEXTURE_MAPPING none true []).output_lines)
    ∧ mkTextureLine (indentOf lrSp) solPath
      = List.replicate (indentOf lrSp) ' ' ++ texOpenLit ++ solPath ++ texCloseLit :=
  C1_texture_insertion TEXTURE_MAPPING [] [] [] lnSol lrSp solName solPath
    (by decide) (by decide) (by decide) (by decide)

/-- C3: every input line appears in the output unchanged and in order; every
output line is an input line or an inserted mapped texture line; and a
record whose body name is unmapped is passed through byte-identical, with
the updated count unchanged across it. -/
theorem C3_frame_preservation (m : List (Line × Line)) (lines : List Line) :
    List.Sublist lines (process_ron_file m lines).output_lines
    ∧ (∀ l ∈ (process_ron_file m lines).output_lines,
        l ∈ lines ∨ ∃ i nm path, lookupTexture m nm = some path
          ∧ l = mkTextureLine i path)
    ∧ (∀ (P M rest : List Line) (ln X : Line),
        lines = P ++ ln :: (M ++ rest) →
        matchNameLine ln = some X →
        lookupTexture m X = none →
        (∀ l ∈ M, matchNameLine l = none) →
        ∃ tail, (process_ron_file m lines).output_lines
            = (process_ron_file m P).output_lines ++ ln :: (M ++ tail)
          ∧ (process_ron_file m (P ++ ln :: M)).bodies_updated
            = (process_ron_file m P).bodies_updated) := by
  obtain ⟨emitted, hout, hsub, hmem⟩ :=
    fold_shape m lines ⟨[], none, false, 0⟩
  have hout2 : (process_ron_file m lines).output_lines = emitted := by
    rw [show (process_ron_file m lines)
        = List.foldl (processLineStep m) ⟨[], none, false, 0⟩ lines from rfl, hout]
    rfl
  refine ⟨?_, ?_, ?_⟩
  · rw [hout2]; exact hsub
  · rw [hout2]; exact hmem
  · intro P M rest ln X hsplit hn hunm hM
    subst hsplit
    have hX := matchName_ne_nil hn
    -- the record span `ln :: M`, from any incoming state
    have hrec : ∀ (cur : Option Line) (ta : Bool), ∃ c2,
        runPatch m cur ta (ln :: M) = ⟨ln :: M, c2, false, 0⟩ := by
      intro cur ta
      obtain ⟨c2, hr2, _⟩ := seg_unmapped m hX hunm M hM (some X) (Or.inl rfl)
      refine ⟨c2, ?_⟩
      rw [runPatch_cons, step_name m [] cur ta 0 hn]
      simp [hr2]
    have hassoc : P ++ ln :: (M ++ rest) = (P ++ (ln :: M)) ++ rest := by simp
    obtain ⟨c2, hr2⟩ := hrec (runPatch m none false P).current_body_name
      (runPatch m none false P).texture_added
    refine ⟨(runPatch m c2 false rest).output_lines, ?_, ?_⟩
    · rw [process_eq_runPatch, hassoc, runPatch_append, runPatch_append, hr2]
      simp [process_eq_runPatch]
    · rw [process_eq_runPatch, process_eq_runPatch, runPatch_append, hr2]
      simp

/-- C3 (witness): the frame statement instantiated at an unmapped record,
`Halley`, whose record is passed through byte-identical. -/
theorem C3_frame_preservation_witness :
    ∃ tail, (process_ron_file TEXTURE_MAPPING [lnHalley, lrSp]).output_lines
        = (process_ron_file TEXTURE_MAPPING []).output_lines
          ++ lnHalley :: ([lrSp] ++ tail)
      ∧ (process_ron_file TEXTURE_MAPPING ([] ++ lnHalley :: [lrSp])).bodies_updated
        = (process_ron_file TEXTURE_MAPPING []).bodies_updated :=
  (C3_frame_preservation TEXTURE_MAPPING [lnHalley, lrSp]).2.2
    [] [lrSp] [] lnHalley halleyName rfl (by decide) (by decide) (by decide)

/-- C4: after a record's anchor line is processed the cursor is cleared, so
a span `N` without further `name:` lines — whatever `rotation_period:`
lines it contains — is copied verbatim with no insertion and no count, and
the continuation `rest` proceeds from the cleared cursor. -/
theorem C4_one_insertion_per_record (m : List (Line × Line))
    (P M N rest : List Line) (ln lr X : Line)
    (hn : matchNameLine ln = some X)
    (hM : ∀ l ∈ M, matchNameLine l = none ∧ matchRotLine l = false)
    (hr : matchRotLine lr = true)
    (hN : ∀ l ∈ N, matchNameLine l = none) :
    (process_ron_file m (P ++ ln :: (M ++ [lr]))).current_body_name = none
    ∧ (process_ron_file m (P ++ ln :: (M ++ lr :: (N ++ rest)))).output_lines
      = (process_ron_file m (P ++ ln :: (M ++ [lr]))).output_lines ++ N
        ++ (runPatch m none
            (process_ron_file m (P ++ ln :: (M ++ [lr]))).texture_added
            rest).output_lines
    ∧ (process_ron_file m (P ++ ln :: (M ++ lr :: (N ++ rest)))).bodies_updated
      = (process_ron_file m (P ++ ln :: (M ++ [lr]))).bodies_updated
        + (runPatch m none
            (process_ron_file m (P ++ ln :: (M ++ [lr]))).texture_added
            rest).bodies_updated := by
  obtain ⟨ext, t2, k, hrec⟩ := rec_anchor m hn hM hr
    (runPatch m none false P).current_body_name
    (runPatch m none false P).texture_added
  have hA : process_ron_file m (P ++ ln :: (M ++ [lr]))
      = ⟨(runPatch m none false P).output_lines ++ (ln :: (M ++ lr :: ext)),
         none, t2, (runPatch m none false P).bodies_updated + k⟩ := by
    have h1 : P ++ ln :: (M ++ [lr]) = P ++ (ln :: (M ++ [lr])) := rfl
    rw [process_eq_runPatch, h1, runPatch_append, hrec]
  have hassoc : P ++ ln :: (M ++ lr :: (N ++ rest))
      = ((P ++ (ln :: (M ++ [lr]))) ++ N) ++ rest := by simp
  have hB : process_ron_file m (P ++ ln :: (M ++ lr :: (N ++ rest)))
      = ⟨((runPatch m none false P).output_lines ++ (ln :: (M ++ lr :: ext)))
           ++ N ++ (runPatch m none t2 rest).output_lines,
         (runPatch m none t2 rest).current_body_name,
         (runPatch m none t2 rest).texture_added,
         ((runPatch m none false P).bodies_updated + k)
           + (runPatch m none t2 rest).bodies_updated⟩ := by
    rw [process_eq_runPatch, hassoc, runPatch_append, runPatch_append, runPatch_append,
        hrec]
    simp [seg_nocursor m N hN t2]
  rw [hA, hB]
  simp

/-- C4 (witness): a record followed by a second anchor line before any next
`name:` line; the second anchor is copied with no insertion. -/
theorem C4_one_insertion_per_record_witness :
    (process_ron_file TEXTURE_MAPPING ([] ++ lnSol :: ([] ++ [lrSp]))).current_body_name = none
    ∧ (process_ron_file TEXTURE_MAPPING ([] ++ lnSol :: ([] ++ lrSp :: ([lrSp] ++ [])))).output_lines
      = (process_ron_file TEXTURE_MAPPING ([] ++ lnSol :: ([] ++ [lrSp]))).output_lines ++ [lrSp]
        ++ (runPatch TEXTURE_MAPPING none
            (process_ron_file TEXTURE_MAPPING ([] ++ lnSol :: ([] ++ [lrSp]))).texture_added
            []).output_lines
    ∧ (process_ron_file TEXTURE_MAPPING ([] ++ lnSol :: ([] ++ lrSp :: ([lrSp] ++ [])))).bodies_updated
      = (process_ron_file TEXTURE_MAPPING ([] ++ lnSol :: ([] ++ [lrSp]))).bodies_updated
        + (runPatch TEXTURE_MAPPING none
            (process_ron_file TEXTURE_MAPPING ([] ++ lnSol :: ([] ++ [lrSp]))).texture_added
            []).bodies_updated :=
  C4_one_insertion_per_record TEXTURE_MAPPING [] [] [lrSp] [] lnSol lrSp solName
    (by decide) (by decide) (by decide) (by decide)

/-- C5: the raw patch is not idempotent: re-running the patcher on its own
output for a mapped, well-formed record inserts again, leaving two texture
lines directly after that record's anchor line. -/
theorem C5_not_idempotent (m : List (Line × Line)) (P M S : List Line)
    (ln lr X path : Line)
    (hn : matchNameLine ln = some X)
    (hM : ∀ l ∈ M, matchNameLine l = none ∧ matchRotLine l = false)
    (hr : matchRotLine lr = true)
    (hmap : lookupTexture m X = some path) :
    ∃ pre tail,
      (process_ron_file m
          ((process_ron_file m (P ++ ln :: (M ++ lr :: S))).output_lines)).output_lines
        = pre ++ ln :: (M ++ lr :: mkTextureLine (indentOf lr) path
            :: mkTextureLine (indentOf lr) path :: tail) := by
  have hsplit : P ++ ln :: (M ++ lr :: S) = P ++ ((ln :: (M ++ [lr])) ++ S) := by
    simp
  have h1 : (process_ron_file m (P ++ ln :: (M ++ lr :: S))).output_lines
      = ((runPatch m none false P).output_lines ++ (ln :: (M ++ [lr])))
        ++ (mkTextureLine (indentOf lr) path
          :: (runPatch m none true S).output_lines) := by
    rw [process_eq_runPatch, hsplit, runPatch_append, runPatch_append,
        rec_insert m hn hM hr hmap]
    simp
  rw [h1]
  have hT1 : matchNameLine (mkTextureLine (indentOf lr) path) = none :=
    texline_not_name (indentOf lr) path
  -- second run: prefix, then the record (insert again), then the first
  -- run's texture line copied with the cursor cleared, then the rest
  have h2 : runPatch m none true (mkTextureLine (indentOf lr) path
        :: (runPatch m none true S).output_lines)
      = ⟨mkTextureLine (indentOf lr) path
           :: (runPatch m none true ((runPatch m none true S).output_lines)).output_lines,
         (runPatch m none true ((runPatch m none true S).output_lines)).current_body_name,
         (runPatch m none true ((runPatch m none true S).output_lines)).texture_added,
         (runPatch m none true ((runPatch m none true S).output_lines)).bodies_updated⟩ := by
    rw [runPatch_cons, step_nocursor m [] true 0 hT1]
    simp
  refine ⟨(runPatch m none false ((runPatch m none false P).output_lines)).output_lines,
    (runPatch m none true ((runPatch m none true S).output_lines)).output_lines, ?_⟩
  rw [process_eq_runPatch, runPatch_append, runPatch_append,
      rec_insert m hn hM hr hmap, h2]
  simp

/-- C5 (witness): patching the patched `Sol` record again inserts a second
texture line after the anchor. -/
theorem C5_not_idempotent_witness :
    ∃ pre tail,
      (process_ron_file TEXTURE_MAPPING
          ((process_ron_file TEXTURE_MAPPING ([] ++ lnSol :: ([] ++ lrSp :: []))).output_lines)).output_lines
        = pre ++ lnSol :: ([] ++ lrSp :: mkTextureLine (indentOf lrSp) solPath
            :: mkTextureLine (indentOf lrSp) solPath :: tail) :=
  C5_not_idempotent TEXTURE_MAPPING [] [] [] lnSol lrSp solName solPath
    (by decide) (by decide) (by decide) (by decide)

/-- C6: a mapped `name:` line with no `rotation_period:` line before the
next `name:` line (or the end of file) produces no texture line, no count,
and no error: the record is copied verbatim and the continuation behaves
exactly as from a cleared cursor. -/
theorem C6_missing_anchor_skipped (m : List (Line × Line))
    (P M rest : List Line) (ln X path : Line)
    (hn : matchNameLine ln = some X)
    (hmap : lookupTexture m X = some path)
    (hM : ∀ l ∈ M, matchNameLine l = none ∧ matchRotLine l = false)
    (hrest : rest = [] ∨ ∃ ln2 rest2 Y, rest = ln2 :: rest2
      ∧ matchNameLine ln2 = some Y) :
    (process_ron_file m (P ++ ln :: (M ++ rest))).output_lines
      = (process_ron_file m P).output_lines
        ++ ln :: (M ++ (runPatch m none false rest).output_lines)
    ∧ (process_ron_file m (P ++ ln :: (M ++ rest))).bodies_updated
      = (process_ron_file m P).bodies_updated
        + (runPatch m none false rest).bodies_updated := by
  -- the record span emits itself and leaves the cursor on `X`, flag clear
  have hrec : ∀ (cur : Option Line) (ta : Bool),
      runPatch m cur ta (ln :: M) = ⟨ln :: M, some X, false, 0⟩ := by
    intro cur ta
    rw [runPatch_cons, step_name m [] cur ta 0 hn]
    simp [seg_plain m M hM (some X) false]
  -- from the states `some X` and `none` (flag clear), `rest` emits the
  -- same lines and counts the same updates
  have hsame : (runPatch m (some X) false rest).output_lines
        = (runPatch m none false rest).output_lines
      ∧ (runPatch m (some X) false rest).bodies_updated
        = (runPatch m none false rest).bodies_updated := by
    rcases hrest with hre | ⟨ln2, rest2, Y, hre, hn2⟩
    · subst hre
      simp [runPatch_nil]
    · subst hre
      rw [runPatch_restart m ln2 rest2 hn2 (some X) none false false]
      exact ⟨rfl, rfl⟩
  have hassoc : P ++ ln :: (M ++ rest) = (P ++ (ln :: M)) ++ rest := by simp
  rw [process_eq_runPatch, process_eq_runPatch, hassoc, runPatch_append,
      runPatch_append, hrec]
  simp [hsame.1, hsame.2]

/-- C6 (witness): a mapped record (`Sol`) cut short by the end of file gets
no texture line and no count. -/
theorem C6_missing_anchor_skipped_witness :
    (process_ron_file TEXTURE_MAPPING ([] ++ lnSol :: ([] ++ []))).output_lines
      = (process_ron_file TEXTURE_MAPPING []).output_lines
        ++ lnSol :: ([] ++ (runPatch TEXTURE_MAPPING none false []).output_lines)
    ∧ (process_ron_file TEXTURE_MAPPING ([] ++ lnSol :: ([] ++ []))).bodies_updated
      = (process_ron_file TEXTURE_MAPPING []).bodies_updated
        + (runPatch TEXTURE_MAPPING none false []).bodies_updated :=
  C6_missing_anchor_skipped TEXTURE_MAPPING [] [] [] lnSol solName solPath
    (by decide) (by decide) (by decide) (Or.inl rfl)

/-! Facts about the noise loop. -/

/-- `randint(-30, 30)` yields a value in `[-30, 30]`. -/
theorem randint_range (s : Nat) :
    -30 ≤ (randint (-30) 30 s).1 ∧ (randint (-30) 30 s).1 ≤ 30 := by
  have hval : (randint (-30) 30 s).1 = -30 + Int.ofNat (rngNext s % 61) := by
    unfold randint
    norm_num
  rw [hval, Int.ofNat_eq_coe]
  have hlt : rngNext s % 61 < 61 := Nat.mod_lt _ (by decide)
  omega

/-- Every pixel of a noised row is the base color plus one in-range delta
on all three channels, clamped; the row has the requested width. -/
theorem noiseRow_spec (base : Pixel) :
    ∀ (w : Nat) (s : Nat),
      ((noiseRow base w s).1.length = w
        ∧ ∀ p ∈ (noiseRow base w s).1, ∃ d : Int, -30 ≤ d ∧ d ≤ 30
            ∧ p = noisePixel base d) := by
  intro w
  induction w with
  | zero => intro s; exact ⟨rfl, by simp [noiseRow]⟩
  | succ w ih =>
    intro s
    obtain ⟨hlen, hmem⟩ := ih (randint (-30) 30 s).2
    constructor
    · simp [noiseRow, hlen]
    · intro p hp
      rw [show (noiseRow base (w + 1) s).1
          = noisePixel base (randint (-30) 30 s).1
            :: (noiseRow base w (randint (-30) 30 s).2).1 from rfl] at hp
      rcases List.mem_cons.mp hp with hp | hp
      · exact ⟨(randint (-30) 30 s).1, (randint_range s).1, (randint_range s).2, hp⟩
      · exact hmem p hp

/-- The noised raster has the requested height, each row the requested
width, and every pixel is the clamped base color plus one in-range delta. -/
theorem noiseGrid_spec (base : Pixel) (w : Nat) :
    ∀ (h : Nat) (s : Nat),
      ((noiseGrid base w h s).1.length = h
        ∧ ∀ row ∈ (noiseGrid base w h s).1, row.length = w
            ∧ ∀ p ∈ row, ∃ d : Int, -30 ≤ d ∧ d ≤ 30 ∧ p = noisePixel base d) := by
  intro h
  induction h with
  | zero => intro s; exact ⟨rfl, by simp [noiseGrid]⟩
  | succ h ih =>
    intro s
    obtain ⟨hlen, hmem⟩ := ih (noiseRow base w s).2
    constructor
    · simp [noiseGrid, hlen]
    · intro row hrow
      rw [show (noiseGrid base w (h + 1) s).1
          = (noiseRow base w s).1 :: (noiseGrid base w h (noiseRow base w s).2).1
          from rfl] at hrow
      rcases List.mem_cons.mp hrow with hrow | hrow
      · subst hrow
        exact ⟨(noiseRow_spec base w s).1, (noiseRow_spec base w s).2⟩
      · exact hmem row hrow

/-- C7: in `create_rocky_texture`, the raster handed to the blur is the
`width × height` grid in which every pixel carries one sampled integer
delta in `[-30, 30]`, added to all three channels of the base color, each
channel clamped to `[0, 255]` (`clampChannel v = max 0 (min 255 v)`). -/
theorem C7_noise_model (blur : List (List Pixel) → List (List Pixel))
    (w h : Nat) (c : Pixel) (seed g0 : Nat) :
    (create_rocky_texture blur w h c seed g0).1
      = blur (noiseGrid c w h (seedRng seed)).1
    ∧ (noiseGrid c w h (seedRng seed)).1.length = h
    ∧ ∀ row ∈ (noiseGrid c w h (seedRng seed)).1, row.length = w
        ∧ ∀ p ∈ row, ∃ d : Int, -30 ≤ d ∧ d ≤ 30
            ∧ p = (clampChannel (c.1 + d), clampChannel (c.2.1 + d),
                clampChannel (c.2.2 + d)) :=
  ⟨rfl, (noiseGrid_spec c w h (seedRng seed)).1,
    (noiseGrid_spec c w h (seedRng seed)).2⟩

/-- C7 (witness): the model applied to a concrete 2 × 1 texture; the first
pixel of the seeded raster is the clamped base color plus an in-range
delta. -/
theorem C7_noise_model_witness :
    ∃ d : Int, -30 ≤ d ∧ d ≤ 30
      ∧ (((noiseGrid (100, 100, 100) 2 1 (seedRng 0)).1.getD 0 []).getD 0 (0, 0, 0))
        = (clampChannel (100 + d), clampChannel (100 + d), clampChannel (100 + d)) := by
  have h := C7_noise_model id 2 1 (100, 100, 100) 0 999
  have hrow := (h.2.2 ((noiseGrid (100, 100, 100) 2 1 (seedRng 0)).1.getD 0 [])
    (by decide)).2
  exact hrow (((noiseGrid (100, 100, 100) 2 1 (seedRng 0)).1.getD 0 []).getD 0 (0, 0, 0))
    (by decide)

/-- C8: texture generation is deterministic within one execution
environment: a second call with the same width, height, base color and
seed — even from the generator state the first call left behind — produces
the identical raster; likewise `create_moon_texture` for the same name
under the process's fixed string hash. -/
theorem C8_deterministic (blur : List (List Pixel) → List (List Pixel))
    (pyHash : List Char → Nat) (w h : Nat) (c : Pixel) (seed : Nat)
    (name : List Char) (g0 : Nat) :
    (create_rocky_texture blur w h c seed g0).1
      = (create_rocky_texture blur w h c seed
          (create_rocky_texture blur w h c seed g0).2).1
    ∧ (create_moon_texture blur pyHash w h c name g0).1
      = (create_moon_texture blur pyHash w h c name
          (create_moon_texture blur pyHash w h c name g0).2).1 :=
  ⟨rfl, rfl⟩

/-- C9: because `create_rocky_texture` reseeds the generator at entry, its
raster is a function of its arguments only — two calls with the same
arguments but arbitrary different incoming generator states (as left by
previously generated textures) give the same raster. -/
theorem C9_state_independent (blur : List (List Pixel) → List (List Pixel))
    (w h : Nat) (c : Pixel) (seed : Nat) (g0 g1 : Nat) :
    (create_rocky_texture blur w h c seed g0).1
      = (create_rocky_texture blur w h c seed g1).1 := rfl

/-- C10: a line of the form `name: ""` — any whitespace, `name:`, any
whitespace, an empty quoted string — is not recognized as a name line
(`[^"]+` needs at least one character), so the loop copies it unchanged
and neither sets the cursor nor resets the flag. -/
theorem C10_empty_name_not_recognized (ws1 ws2 tail2 : Line)
    (h1 : ∀ c ∈ ws1, isPySpace c = true) (h2 : ∀ c ∈ ws2, isPySpace c = true)
    (m : List (Line × Line)) (out : List Line) (cur : Option Line)
    (ta : Bool) (cnt : Nat) :
    matchNameLine (ws1 ++ nameKey ++ ws2 ++ '"' :: '"' :: tail2) = none
    ∧ processLineStep m ⟨out, cur, ta, cnt⟩
        (ws1 ++ nameKey ++ ws2 ++ '"' :: '"' :: tail2)
      = ⟨out ++ [ws1 ++ nameKey ++ ws2 ++ '"' :: '"' :: tail2], cur, ta, cnt⟩ := by
  have ha : ws1 ++ nameKey ++ ws2 ++ '"' :: '"' :: tail2
      = ws1 ++ (nameKey ++ (ws2 ++ '"' :: '"' :: tail2)) := by simp
  have hd : dropLit nameKey (dropWs (ws1 ++ (nameKey ++ (ws2 ++ '"' :: '"' :: tail2))))
      = some (ws2 ++ '"' :: '"' :: tail2) := by
    rw [dropWs_ws_append ws1 (nameKey ++ (ws2 ++ '"' :: '"' :: tail2)) h1]
    rw [show dropWs (nameKey ++ (ws2 ++ '"' :: '"' :: tail2))
        = nameKey ++ (ws2 ++ '"' :: '"' :: tail2) from rfl]
    simp [nameKey, dropLit]
  have hname : matchNameLine (ws1 ++ nameKey ++ ws2 ++ '"' :: '"' :: tail2) = none := by
    rw [ha]
    unfold matchNameLine
    rw [hd]
    show (match dropWs (ws2 ++ '"' :: '"' :: tail2) with
      | [] => none
      | c :: rest =>
        if c = '"' then
          match scanQuoted rest with
          | none => none
          | some nm => if nm = [] then none else some nm
        else none) = none
    rw [dropWs_ws_append ws2 ('"' :: '"' :: tail2) h2]
    rfl
  have hrot : matchRotLine (ws1 ++ nameKey ++ ws2 ++ '"' :: '"' :: tail2) = false := by
    rw [ha]
    unfold matchRotLine
    rw [dropWs_ws_append ws1 (nameKey ++ (ws2 ++ '"' :: '"' :: tail2)) h1]
    rfl
  exact ⟨hname, step_other m out cur ta cnt hname hrot⟩

/-- C10 (witness): the concrete line `name: ""` followed by a newline is
copied unchanged with the whole scan state untouched. -/
theorem C10_empty_name_not_recognized_witness :
    matchNameLine ([] ++ nameKey ++ [' '] ++ '"' :: '"' :: ['\n']) = none
    ∧ processLineStep TEXTURE_MAPPING ⟨[], none, false, 0⟩
        ([] ++ nameKey ++ [' '] ++ '"' :: '"' :: ['\n'])
      = ⟨[] ++ [[] ++ nameKey ++ [' '] ++ '"' :: '"' :: ['\n']], none, false, 0⟩ :=
  C10_empty_name_not_recognized [] [' '] ['\n'] (by decide) (by decide)
    TEXTURE_MAPPING [] none false 0
